import Mathlib

/-!
Shallow embedding of the search/ingestion layer of `src/backend/elastic.js`
(Search NEU). Index documents are modelled as flat records carrying the
fields the queries touch; the external index engine (Elasticsearch) is
modelled by executable functions implementing the semantics of the exact
request bodies that `elastic.js` builds: `multi_match` text matching,
`bool`/`should` filtering, `sort` by `_score` descending then
`class.classId.keyword` ascending (keyword = lexicographic string order,
missing values last), `mget`, bulk writes, and the terms aggregation.
Relevance scores are engine-internal, so they enter as an abstract
`score : Doc → Nat` parameter; everything else is concrete and executable.
-/

namespace SearchNEU

/-- An index document (`hit._source` plus its metadata), flattened:
`type` is the discriminator field (`"class"` or `"employee"`),
`termId`/`classId`/`crn`/`scheduleType`/`subject` model the nested
`class.*` fields (absent on employee documents), and `fields` is the
searchable text content by field name. -/
structure Doc where
  type : String
  termId : Option String
  classId : Option String
  crn : Option String
  scheduleType : Option String
  subject : Option String
  fields : List (String × String)
deriving DecidableEq, Repr

/-- A search hit: a document together with the engine-assigned relevance
score (`hit._score`). -/
structure Hit where
  score : Nat
  doc : Doc
deriving DecidableEq, Repr

/-- Splits a character list at a separator character. -/
def splitChars (sep : Char) : List Char → List Char → List (List Char)
  | [], cur => [cur.reverse]
  | c :: cs, cur =>
      if c == sep then cur.reverse :: splitChars sep cs []
      else splitChars sep cs (c :: cur)

/-- Engine-side text analysis: a string is split into whitespace-separated
tokens; the empty string yields no tokens (Elasticsearch `match` with zero
tokens matches nothing, `zero_terms_query: none`). -/
def tokenize (s : String) : List String :=
  ((splitChars ' ' s.data []).map (fun cs => String.mk cs)).filter (fun t => !(t == ""))

/-- One field of a document matches the query when some query token occurs
among the field's tokens (`match` with the default `or` operator). -/
def fieldMatches (q : String) (text : String) : Bool :=
  (tokenize q).any (fun tok => (tokenize text).contains tok)

/-- The `multi_match` (`type: most_fields`) clause built by `search`:
the document matches when at least one of the requested `searchFields`
matches the query text. -/
def multiMatch (q : String) (searchFields : List String) (d : Doc) : Bool :=
  d.fields.any (fun p => searchFields.contains p.1 && fieldMatches q p.2)

/-- The mandatory filter built by `search`:
`bool.should [ term class.termId = termId, term type = 'employee' ]`,
i.e. the disjunction of the two term clauses (a `should` inside a filter
with no `must` requires at least one clause to match). -/
def filterPass (d : Doc) (termId : String) : Bool :=
  (d.termId == some termId) || (d.type == "employee")

/-- Lexicographic order on character lists by code point, the order a
keyword field sorts in (for ASCII data, UTF-8 byte order coincides with
code-point order). -/
def lexLE : List Char → List Char → Bool
  | [], _ => true
  | _ :: _, [] => false
  | a :: as, b :: bs =>
      if a.toNat < b.toNat then true
      else if b.toNat < a.toNat then false
      else lexLE as bs

/-- Keyword (string) ascending order on the optional
`class.classId.keyword` sort field; documents missing the field sort last
(`unmapped_type: keyword`, missing `_last`). -/
def tieKeyLE : Option String → Option String → Bool
  | _, none => true
  | none, some _ => false
  | some a, some b => lexLE a.data b.data

/-- The sort comparator of `search`'s request body:
`_score` descending first, then `class.classId.keyword` ascending. -/
def hitLE (a b : Hit) : Bool :=
  decide (b.score < a.score) || (decide (a.score = b.score) && tieKeyLE a.doc.classId b.doc.classId)

/-- The comparator as a decidable relation, for use with the stable sort. -/
def hitRel (a b : Hit) : Prop := hitLE a b = true

instance : DecidableRel hitRel := fun a b => inferInstanceAs (Decidable (hitLE a b = true))

/-- Name of the index `search` queries (`this.CLASS_INDEX`). -/
def CLASS_INDEX : String := "classes"

/-- Name of the employees index (`this.EMPLOYEE_INDEX`). -/
def EMPLOYEE_INDEX : String := "employees"

/-- The ranked hit list for `search query termId … searchFields`: documents
of the queried index that match the `multi_match` clause and pass the
term/type filter, scored by the engine and stably sorted by the request's
sort keys (ties beyond the sort keys keep index order). -/
def searchHits (stores : String → List Doc) (score : Doc → Nat)
    (query termId : String) (searchFields : List String) : List Hit :=
  (((stores CLASS_INDEX).filter (fun d => multiMatch query searchFields d && filterPass d termId)).map
    (fun d => ⟨score d, d⟩)).insertionSort hitRel

/-- What `search` returns: the windowed hit list (`searchContent`) and the
total matched count (`hits.total.value`). -/
structure SearchResult where
  searchContent : List Hit
  resultCount : Nat
deriving DecidableEq, Repr

/-- `Elastic.search(query, termId, min, max, searchFields)`: issues the one
engine query (`from: min`, `size: max - min`) against `CLASS_INDEX` and
returns the windowed hits plus the total matched count. -/
def search (stores : String → List Doc) (score : Doc → Nat)
    (query termId : String) (min max : Nat) (searchFields : List String) : SearchResult :=
  let hits := searchHits stores score query termId searchFields
  ⟨(hits.drop min).take (max - min), hits.length⟩

/-! ### Ingestion pipeline: bulk writes -/

/-- One line of an engine bulk request body: an index action header
(`{ index: { _id } }`) followed by the document source, or an update
action header (`{ update: { _id } }`) followed by the partial document
(`{ doc }`). The source payload of an index action is looked up in the
caller's map, hence `Option`. -/
inductive BulkLine (α : Type) where
  | indexAct (id : String)
  | indexSrc (doc : Option α)
  | updateAct (id : String)
  | updateDoc (doc : α)
deriving DecidableEq, Repr

/-- One `client.bulk` request: target index, the `refresh` request
parameter when present, and the body lines. -/
structure BulkReq (α : Type) where
  index : String
  refresh : Option String
  body : List (BulkLine α)
deriving DecidableEq, Repr

/-- Lodash `_.chunk(l, n)`: consecutive slices of length `n` (the last one
possibly shorter), in order. -/
def chunkList (n : Nat) : List String → List (List String)
  | [] => []
  | x :: xs => (x :: xs.take (n - 1)) :: chunkList n (xs.drop (n - 1))
termination_by l => l.length
decreasing_by simp only [List.length_drop, List.length_cons]; omega

/-- The bulk request `bulkIndexFromMap` issues for one chunk of ids:
`client.bulk({ index: indexName, refresh: 'wait_for', body })` where the
body alternates `{ index: { _id: id } }` with `map[id]`. The input map is
an association list (JS object in key-insertion order). -/
def mkIndexReq (α : Type) (indexName : String) (map : List (String × α))
    (part : List String) : BulkReq α :=
  { index := indexName
    refresh := some "wait_for"
    body := part.flatMap (fun id => [.indexAct id, .indexSrc (map.lookup id)]) }

/-- `Elastic.bulkIndexFromMap(indexName, map)`: chunks `Object.keys(map)`
into groups of 100 and builds one bulk-index request per chunk, chained
sequentially on a promise. This returns the requests in issue order. -/
def bulkIndexFromMap (α : Type) (indexName : String) (map : List (String × α)) :
    List (BulkReq α) :=
  (chunkList 100 (map.map Prod.fst)).map (mkIndexReq α indexName map)

/-- The ids named by the index actions of a bulk request's body. -/
def bulkIds (r : BulkReq α) : List String :=
  r.body.filterMap (fun l => match l with | .indexAct id => some id | _ => none)

/-- `Elastic.bulkUpdateFromMap(indexName, map)`: one bulk request whose
body alternates `{ update: { _id: id } }` with `{ doc: map[id] }`; the
call passes no `refresh` parameter. -/
def bulkUpdateFromMap (α : Type) (indexName : String) (map : List (String × α)) :
    BulkReq α :=
  { index := indexName
    refresh := none
    body := map.flatMap (fun p => [.updateAct p.1, .updateDoc p.2]) }

/-- An observable event of the promise chain built by `bulkIndexFromMap`:
the engine request for batch `k` starts, or completes. -/
inductive Event where
  | start (k : Nat)
  | finish (k : Nat)
deriving DecidableEq, Repr

/-- The events one `client.bulk` call contributes: it starts and, before
its promise resolves, completes. -/
def bulkEvents (k : Nat) : List Event := [.start k, .finish k]

/-- Execution trace of the promise chain
`promises = promises.then(() => client.bulk …)` built by
`bulkIndexFromMap`: a resolved promise is the empty trace and `.then`
appends the continuation's events after the chain so far. -/
def chainTrace (numBatches : Nat) : List Event :=
  (List.range numBatches).foldl (fun acc k => acc ++ bulkEvents k) []

/-! ### `mget` and `getMapFromIDs` -/

/-- One entry of an `mget` response: the requested id, whether it was
found, and its source when found. -/
structure MgetDoc (α : Type) where
  id : String
  found : Bool
  src : Option α
deriving DecidableEq, Repr

/-- Engine `mget`: one response entry per requested id, in request order;
`found` reports whether the store holds the id. -/
def mget (store : List (String × α)) (ids : List String) : List (MgetDoc α) :=
  ids.map (fun id =>
    match store.lookup id with
    | some s => ⟨id, true, some s⟩
    | none => ⟨id, false, none⟩)

/-- JS object assignment `result[k] = v` on an association list: overwrite
in place when the key exists, else append (insertion order preserved). -/
def objSet (m : List (String × α)) (k : String) (v : α) : List (String × α) :=
  if (m.lookup k).isSome then m.map (fun p => if p.1 == k then (k, v) else p)
  else m ++ [(k, v)]

/-- The reducer body of `getMapFromIDs`:
`if (doc.found) { result[doc._id] = doc._source } return result`. -/
def mgetReduceStep (result : List (String × α)) (doc : MgetDoc α) : List (String × α) :=
  if doc.found then
    match doc.src with
    | some s => objSet result doc.id s
    | none => result
  else result

/-- `Elastic.getMapFromIDs(indexName, ids)`: issues one `mget` and reduces
the response entries into an object keeping only the found ones. -/
def getMapFromIDs (store : List (String × α)) (ids : List String) :
    List (String × α) :=
  (mget store ids).foldl mgetReduceStep []

/-! ### Subject vocabulary cache -/

/-- The terms aggregation `getSubjectsFromClasses` runs on first call:
distinct `class.subject.keyword` values over all indexed class documents,
each key lowercased, collected into a set (the `size: 10000` bound is
"anything that will get everything", i.e. all buckets). -/
def computeSubjects (store : List Doc) : List String :=
  ((store.filterMap Doc.subject).dedup.map String.toLower).dedup

/-- `Elastic.getSubjectsFromClasses()` as a state transformer: the state is
the instance field `this.subjects` (initially `null` = `none`). Returns the
subject set, the new state, and whether an engine query was issued. -/
def getSubjectsFromClasses (store : List Doc) (cached : Option (List String)) :
    List String × Option (List String) × Bool :=
  match cached with
  | some s => (s, some s, false)
  | none =>
      let s := computeSubjects store
      (s, some s, true)

/-- `n` successive calls of `getSubjectsFromClasses` threading the cached
state; returns the final state and how many engine queries were issued. -/
def iterateCalls (store : List Doc) : Nat → Option (List String) → Option (List String) × Nat
  | 0, st => (st, 0)
  | n + 1, st =>
      let r := getSubjectsFromClasses store st
      let rest := iterateCalls store n r.2.1
      (rest.1, (if r.2.2 then 1 else 0) + rest.2)

/-! ### Properties of the sort comparator -/

theorem lexLE_refl : ∀ a : List Char, lexLE a a = true
  | [] => rfl
  | x :: xs => by simp [lexLE, lexLE_refl xs]

theorem lexLE_total : ∀ a b : List Char, lexLE a b = true ∨ lexLE b a = true
  | [], _ => Or.inl rfl
  | _ :: _, [] => Or.inr rfl
  | x :: xs, y :: ys => by
      by_cases h1 : x.toNat < y.toNat
      · left; simp [lexLE, h1]
      · by_cases h2 : y.toNat < x.toNat
        · right; simp [lexLE, h2]
        · rcases lexLE_total xs ys with h | h
          · left; simp [lexLE, h1, h2, h]
          · right; simp [lexLE, h1, h2, h]

theorem lexLE_trans : ∀ a b c : List Char,
    lexLE a b = true → lexLE b c = true → lexLE a c = true
  | [], _, _, _, _ => rfl
  | _ :: _, [], _, h1, _ => by simp [lexLE] at h1
  | _ :: _, _ :: _, [], _, h2 => by simp [lexLE] at h2
  | x :: xs, y :: ys, z :: zs, h1, h2 => by
      simp only [lexLE] at h1 h2 ⊢
      split at h1
      next hxy =>
        split at h2
        next hyz => rw [if_pos (by omega)]
        next hyz =>
          split at h2
          next hzy => simp at h2
          next hzy => rw [if_pos (by omega)]
      next hxy =>
        split at h1
        next hyx => simp at h1
        next hyx =>
          split at h2
          next hyz => rw [if_pos (by omega)]
          next hyz =>
            split at h2
            next hzy => simp at h2
            next hzy =>
              rw [if_neg (by omega), if_neg (by omega)]
              exact lexLE_trans xs ys zs h1 h2

theorem tieKeyLE_refl : ∀ o : Option String, tieKeyLE o o = true
  | none => rfl
  | some a => lexLE_refl a.data

theorem tieKeyLE_total : ∀ o₁ o₂ : Option String, tieKeyLE o₁ o₂ = true ∨ tieKeyLE o₂ o₁ = true
  | none, none => Or.inl rfl
  | some _, none => Or.inl rfl
  | none, some _ => Or.inr rfl
  | some a, some b => lexLE_total a.data b.data

theorem tieKeyLE_trans (o₁ o₂ o₃ : Option String)
    (h1 : tieKeyLE o₁ o₂ = true) (h2 : tieKeyLE o₂ o₃ = true) : tieKeyLE o₁ o₃ = true := by
  cases o₃ with
  | none => cases o₁ <;> rfl
  | some c =>
    cases o₂ with
    | none => simp [tieKeyLE] at h2
    | some b =>
      cases o₁ with
      | none => simp [tieKeyLE] at h1
      | some a => exact lexLE_trans a.data b.data c.data h1 h2

instance : IsTotal Hit hitRel := ⟨fun a b => by
  unfold hitRel hitLE
  rcases Nat.lt_trichotomy a.score b.score with h | h | h
  · right; simp [h]
  · rcases tieKeyLE_total a.doc.classId b.doc.classId with ht | ht
    · left; simp [h, ht]
    · right; simp [h, ht]
  · left; simp [h]⟩

instance : IsTrans Hit hitRel := ⟨fun a b c h1 h2 => by
  unfold hitRel hitLE at h1 h2 ⊢
  simp only [Bool.or_eq_true, Bool.and_eq_true, decide_eq_true_eq] at h1 h2 ⊢
  rcases h1 with h1 | ⟨h1e, h1t⟩ <;> rcases h2 with h2 | ⟨h2e, h2t⟩
  · left; omega
  · left; omega
  · left; omega
  · right; exact ⟨by omega, tieKeyLE_trans _ _ _ h1t h2t⟩⟩

/-! ### Helper lemmas about the search pipeline -/

/-- Membership characterization of the ranked hit list: a hit appears
exactly when its document is in the queried index, matches the
`multi_match` clause and passes the term/type filter, with the engine's
score attached. -/
theorem mem_searchHits {stores : String → List Doc} {score : Doc → Nat}
    {q t : String} {fs : List String} {h : Hit} :
    h ∈ searchHits stores score q t fs ↔
      ∃ d ∈ stores CLASS_INDEX,
        multiMatch q fs d = true ∧ filterPass d t = true ∧ h = ⟨score d, d⟩ := by
  unfold searchHits
  rw [List.mem_insertionSort]
  simp only [List.mem_map, List.mem_filter, Bool.and_eq_true]
  constructor
  · rintro ⟨d, ⟨hd, hm, hf⟩, rfl⟩
    exact ⟨d, hd, hm, hf, rfl⟩
  · rintro ⟨d, hd, hm, hf, rfl⟩
    exact ⟨d, ⟨hd, hm, hf⟩, rfl⟩

/-- The ranked hit list is sorted under the request's sort comparator. -/
theorem searchHits_sorted (stores : String → List Doc) (score : Doc → Nat)
    (q t : String) (fs : List String) :
    (searchHits stores score q t fs).Pairwise hitRel :=
  List.sorted_insertionSort hitRel _

/-- Every hit of the returned window belongs to the full ranked list. -/
theorem mem_search_window {stores : String → List Doc} {score : Doc → Nat}
    {q t : String} {mn mx : Nat} {fs : List String} {h : Hit}
    (hh : h ∈ (search stores score q t mn mx fs).searchContent) :
    h ∈ searchHits stores score q t fs := by
  unfold search at hh
  exact ((List.take_sublist _ _).trans (List.drop_sublist _ _)).subset hh

/-! ### Helper lemmas about chunking and the promise chain -/

theorem chunkList_flatten (n : Nat) : ∀ l : List String, (chunkList n l).flatten = l
  | [] => by simp [chunkList]
  | x :: xs => by
      have ih := chunkList_flatten n (xs.drop (n - 1))
      simp only [chunkList, List.flatten_cons, ih, List.cons_append]
      rw [List.take_append_drop]
termination_by l => l.length
decreasing_by simp only [List.length_drop, List.length_cons]; omega

theorem chunkList_length_le (n : Nat) (hn : 1 ≤ n) :
    ∀ l : List String, ∀ c ∈ chunkList n l, c.length ≤ n
  | [] => by simp [chunkList]
  | x :: xs => by
      intro c hc
      simp only [chunkList, List.mem_cons] at hc
      rcases hc with rfl | hc
      · simp only [List.length_cons, List.length_take]; omega
      · exact chunkList_length_le n hn (xs.drop (n - 1)) c hc
termination_by l => l.length
decreasing_by simp only [List.length_drop, List.length_cons]; omega

theorem bulkIds_mkIndexReq (α : Type) (indexName : String) (map : List (String × α)) :
    ∀ part, bulkIds (mkIndexReq α indexName map part) = part
  | [] => rfl
  | id :: rest => by
      have ih := bulkIds_mkIndexReq α indexName map rest
      simp only [bulkIds, mkIndexReq, List.flatMap_cons, List.filterMap_append] at ih ⊢
      simp only [List.filterMap_cons, List.filterMap_nil]
      rw [ih]
      rfl

theorem foldl_append_eq_flatMap {β : Type} (f : β → List Event) :
    ∀ (l : List β) (init : List Event),
      l.foldl (fun acc k => acc ++ f k) init = init ++ l.flatMap f
  | [], init => by simp
  | x :: xs, init => by
      simp only [List.foldl_cons, List.flatMap_cons, foldl_append_eq_flatMap f xs]
      simp [List.append_assoc]

/-! ### Helper lemmas about object assignment and `getMapFromIDs` -/

theorem lookupConsSelf {α : Type} (k : String) (v : α) (rest : List (String × α)) :
    ((k, v) :: rest).lookup k = some v := by
  rw [List.lookup_cons, beq_self_eq_true]

theorem lookupConsNe {α : Type} {k a : String} (hne : k ≠ a) (b : α) (rest : List (String × α)) :
    ((a, b) :: rest).lookup k = rest.lookup k := by
  rw [List.lookup_cons, beq_eq_false_iff_ne.mpr hne]

theorem mapSet_lookup {α : Type} (k : String) (v : α) :
    ∀ m : List (String × α),
      (m.map (fun p => if p.1 == k then (k, v) else p)).lookup k
        = if (m.lookup k).isSome then some v else none
  | [] => by simp
  | (a, b) :: rest => by
      by_cases hp : a = k
      · subst hp
        simp only [List.map_cons]
        rw [if_pos (by simp), lookupConsSelf, lookupConsSelf]
        rfl
      · simp only [List.map_cons]
        rw [if_neg (by simp [hp]), lookupConsNe (Ne.symm hp), lookupConsNe (Ne.symm hp)]
        exact mapSet_lookup k v rest

theorem mapSet_lookup_ne {α : Type} (k k' : String) (v : α) (hne : k' ≠ k) :
    ∀ m : List (String × α),
      (m.map (fun p => if p.1 == k then (k, v) else p)).lookup k' = m.lookup k'
  | [] => by simp
  | (a, b) :: rest => by
      by_cases hp : a = k
      · subst hp
        simp only [List.map_cons]
        rw [if_pos (by simp), lookupConsNe hne, lookupConsNe hne]
        exact mapSet_lookup_ne a k' v hne rest
      · simp only [List.map_cons]
        rw [if_neg (by simp [hp])]
        by_cases hk'a : k' = a
        · subst hk'a
          rw [lookupConsSelf, lookupConsSelf]
        · rw [lookupConsNe hk'a, lookupConsNe hk'a]
          exact mapSet_lookup_ne k k' v hne rest

theorem append_single_lookup {α : Type} (k k' : String) (v : α) :
    ∀ m : List (String × α), m.lookup k = none →
      (m ++ [(k, v)]).lookup k' = if k' = k then some v else m.lookup k'
  | [], _ => by
      by_cases h : k' = k
      · subst h
        rw [List.nil_append, lookupConsSelf, if_pos rfl]
      · rw [List.nil_append, lookupConsNe h, if_neg h]
  | (a, b) :: rest, h => by
      have hka : ¬ k = a := by
        intro he
        subst he
        rw [lookupConsSelf] at h
        exact Option.noConfusion h
      have hrest : rest.lookup k = none := by
        rw [lookupConsNe hka] at h
        exact h
      rw [List.cons_append]
      by_cases hk'a : k' = a
      · rw [hk'a, lookupConsSelf, lookupConsSelf, if_neg (fun he => hka he.symm)]
      · rw [lookupConsNe hk'a, lookupConsNe hk'a,
          append_single_lookup k k' v rest hrest]

theorem objSet_lookup_self {α : Type} (m : List (String × α)) (k : String) (v : α) :
    (objSet m k v).lookup k = some v := by
  unfold objSet
  split
  next hex => rw [mapSet_lookup k v m, if_pos hex]
  next hex =>
    have hnone : m.lookup k = none := by
      cases hm : m.lookup k with
      | none => rfl
      | some x => rw [hm] at hex; simp at hex
    rw [append_single_lookup k k v m hnone, if_pos rfl]

theorem objSet_lookup_ne {α : Type} (m : List (String × α)) (k k' : String) (v : α)
    (hne : k' ≠ k) : (objSet m k v).lookup k' = m.lookup k' := by
  unfold objSet
  split
  next hex => exact mapSet_lookup_ne k k' v hne m
  next hex =>
    have hnone : m.lookup k = none := by
      cases hm : m.lookup k with
      | none => rfl
      | some x => rw [hm] at hex; simp at hex
    rw [append_single_lookup k k' v m hnone, if_neg hne]

theorem mem_objSet {α : Type} {m : List (String × α)} {k : String} {v : α} {p : String × α}
    (hp : p ∈ objSet m k v) : p = (k, v) ∨ p ∈ m := by
  unfold objSet at hp
  split at hp
  next =>
    rcases List.mem_map.mp hp with ⟨q, hq, hfq⟩
    by_cases h : q.1 = k
    · left; rw [← hfq]; simp [h]
    · right
      rw [← hfq]
      have hb : (q.1 == k) = false := by simp [h]
      simpa [hb] using hq
  next =>
    rcases List.mem_append.mp hp with h | h
    · right; exact h
    · left; simpa using h

theorem getMapFold_lookup {α : Type} (store : List (String × α)) (id : String) :
    ∀ (ids : List String) (acc : List (String × α)),
      ((mget store ids).foldl mgetReduceStep acc).lookup id
        = if id ∈ ids ∧ (store.lookup id).isSome then store.lookup id else acc.lookup id
  | [], acc => by simp [mget]
  | i :: rest, acc => by
      have hm : mget store (i :: rest)
          = (match store.lookup i with
              | some s => (⟨i, true, some s⟩ : MgetDoc α)
              | none => ⟨i, false, none⟩) :: mget store rest := rfl
      rw [hm, List.foldl_cons]
      cases hi : store.lookup i with
      | some s =>
          have hstep : mgetReduceStep acc ⟨i, true, some s⟩ = objSet acc i s := rfl
          rw [hstep]
          rw [getMapFold_lookup store id rest (objSet acc i s)]
          by_cases hmem : id ∈ rest ∧ (store.lookup id).isSome
          · rw [if_pos hmem, if_pos ⟨List.mem_cons_of_mem i hmem.1, hmem.2⟩]
          · rw [if_neg hmem]
            by_cases hid : id = i
            · subst hid
              rw [objSet_lookup_self acc id s, hi,
                if_pos ⟨List.mem_cons_self id rest, rfl⟩]
            · rw [objSet_lookup_ne acc i id s hid]
              rw [if_neg]
              intro ⟨hin, hsome⟩
              rcases List.mem_cons.mp hin with h | h
              · exact hid h
              · exact hmem ⟨h, hsome⟩
      | none =>
          have hstep : mgetReduceStep acc ⟨i, false, none⟩ = acc := rfl
          rw [hstep]
          rw [getMapFold_lookup store id rest acc]
          by_cases hmem : id ∈ rest ∧ (store.lookup id).isSome
          · rw [if_pos hmem, if_pos ⟨List.mem_cons_of_mem i hmem.1, hmem.2⟩]
          · rw [if_neg hmem, if_neg]
            intro ⟨hin, hsome⟩
            rcases List.mem_cons.mp hin with h | h
            · subst h; rw [hi] at hsome; simp at hsome
            · exact hmem ⟨h, hsome⟩

theorem getMapFold_mem {α : Type} (store : List (String × α)) :
    ∀ (ids : List String) (acc : List (String × α)) (p : String × α),
      p ∈ (mget store ids).foldl mgetReduceStep acc →
      (p.1 ∈ ids ∧ store.lookup p.1 = some p.2) ∨ p ∈ acc
  | [], _, p, hp => Or.inr (by simpa [mget] using hp)
  | i :: rest, acc, p, hp => by
      have hm : mget store (i :: rest)
          = (match store.lookup i with
              | some s => (⟨i, true, some s⟩ : MgetDoc α)
              | none => ⟨i, false, none⟩) :: mget store rest := rfl
      rw [hm, List.foldl_cons] at hp
      cases hi : store.lookup i with
      | some s =>
          simp only [hi] at hp
          have hstep : mgetReduceStep acc ⟨i, true, some s⟩ = objSet acc i s := rfl
          rw [hstep] at hp
          rcases getMapFold_mem store rest (objSet acc i s) p hp with ⟨hin, hl⟩ | hacc
          · exact Or.inl ⟨List.mem_cons_of_mem i hin, hl⟩
          · rcases mem_objSet hacc with rfl | hm
            · exact Or.inl ⟨List.mem_cons_self i rest, hi⟩
            · exact Or.inr hm
      | none =>
          simp only [hi] at hp
          have hstep : mgetReduceStep acc ⟨i, false, none⟩ = acc := rfl
          rw [hstep] at hp
          rcases getMapFold_mem store rest acc p hp with ⟨hin, hl⟩ | hacc
          · exact Or.inl ⟨List.mem_cons_of_mem i hin, hl⟩
          · exact Or.inr hacc

/-! ### Helper lemma about the subject cache -/

theorem iterateCalls_some (store : List Doc) :
    ∀ (n : Nat) (s : List String), iterateCalls store n (some s) = (some s, 0)
  | 0, _ => rfl
  | n + 1, s => by
      simp [iterateCalls, getSubjectsFromClasses, iterateCalls_some store n s]

/-! ### Concrete fixtures used by witnesses and counterexamples -/

/-- A Lab section of CS 2500 in term 202010. -/
def labSection : Doc :=
  ⟨"class", some "202010", some "2500", some "11111", some "Lab", some "CS",
    [("class.name", "cs lab")]⟩

/-- A Lecture section of CS 2500 in term 202010. -/
def lectureSection : Doc :=
  ⟨"class", some "202010", some "2500", some "10460", some "Lecture", some "CS",
    [("class.name", "cs lecture")]⟩

/-- Index stores holding the two CS 2500 sections in the classes index,
the Lab first in index order. -/
def sectionStores : String → List Doc :=
  fun i => if i == CLASS_INDEX then [labSection, lectureSection] else []

/-- The same classes index, with an employee document stored under the
separately named employees index. -/
def sectionStoresB : String → List Doc :=
  fun i =>
    if i == CLASS_INDEX then [labSection, lectureSection]
    else [⟨"employee", none, none, none, none, none, [("employee.name", "mislove")]⟩]

/-- A class numbered 900. -/
def class900 : Doc :=
  ⟨"class", some "202010", some "900", none, none, some "MATH",
    [("class.name", "algebra intro")]⟩

/-- A class numbered 2500. -/
def class2500 : Doc :=
  ⟨"class", some "202010", some "2500", none, none, some "CS",
    [("class.name", "algebra fun")]⟩

/-- Stores holding the two classes, the one numbered 900 first. -/
def tiebreakStores : String → List Doc :=
  fun i => if i == CLASS_INDEX then [class900, class2500] else []

/-- The offering owning CRN 10460. -/
def crnOwner : Doc :=
  ⟨"class", some "202010", some "2500", some "10460", none, some "CS",
    [("class.crn", "10460"), ("class.name", "fundies")]⟩

/-- A class whose name text merely mentions the digits 10460. -/
def crnImpostor : Doc :=
  ⟨"class", some "202010", some "4994", some "99999", none, some "CS",
    [("class.name", "special topics 10460")]⟩

/-- Stores holding the CRN owner and the impostor. -/
def crnStores : String → List Doc :=
  fun i => if i == CLASS_INDEX then [crnOwner, crnImpostor] else []

/-- Engine relevance the impostor could receive for the query "10460":
more matching text, higher score than the CRN owner. -/
def crnScore : Doc → Nat := fun d => if d.crn == some "10460" then 1 else 2

/-! ### Claims -/

/-- Claim C1: the mandatory search filter is the disjunction of the two
term clauses, not an intersection: a returned non-employee document's
`class.termId` always equals the requested term, an employee document is
eligible whatever term is requested, and a document passes the filter
exactly when its termId matches or its type is `employee`. -/
theorem search_term_filter_eitherOr (stores : String → List Doc) (score : Doc → Nat)
    (q t : String) (mn mx : Nat) (fs : List String) (h : Hit)
    (hmem : h ∈ (search stores score q t mn mx fs).searchContent) :
    (h.doc.type ≠ "employee" → h.doc.termId = some t)
    ∧ (∀ d : Doc, d.type = "employee" → ∀ t', filterPass d t' = true)
    ∧ (∀ (d : Doc) (t' : String),
        filterPass d t' = true ↔ (d.termId = some t' ∨ d.type = "employee")) := by
  have hfilter : ∀ (d : Doc) (t' : String),
      filterPass d t' = true ↔ (d.termId = some t' ∨ d.type = "employee") := by
    intro d t'
    simp [filterPass]
  refine ⟨?_, fun d hd t' => by simp [filterPass, hd], hfilter⟩
  intro hemp
  rcases mem_searchHits.mp (mem_search_window hmem) with ⟨d, _, _, hf, rfl⟩
  rcases (hfilter d t).mp hf with he | he
  · exact he
  · exact absurd he hemp

/-- Witness for C1 at a concrete search: the Lab section returned for the
query "cs" carries the requested term id. -/
theorem search_term_filter_eitherOr_witness :
    (⟨7, labSection⟩ : Hit).doc.termId = some "202010" :=
  (search_term_filter_eitherOr sectionStores (fun _ => 7) "cs" "202010" 0 2
    ["class.name"] ⟨7, labSection⟩ (by decide)).1 (by decide)

/-- Claim C2 counterexample: two classes match at equal relevance, yet the
one with classId "2500" is ordered before the one with classId "900" —
the numerically smaller classId (900 < 2500) does not come first, because
the tie-break compares the keyword field as a string. -/
theorem search_tiebreak_numeric_cex :
    ((search tiebreakStores (fun _ => 5) "algebra" "202010" 0 2 ["class.name"]).searchContent.map
        (fun h => h.doc.classId)) = [some "2500", some "900"]
    ∧ ((search tiebreakStores (fun _ => 5) "algebra" "202010" 0 2 ["class.name"]).searchContent.map
        Hit.score) = [5, 5]
    ∧ (900 : Nat) < 2500 := by decide

/-- Claim C2 amended: after descending relevance score, the tie-break is
the ascending keyword (lexicographic string) order of `class.classId`,
documents missing the field last — so "2500" precedes "900" at equal
score. Every result window is pairwise ordered accordingly. -/
theorem search_tiebreak_keyword (stores : String → List Doc) (score : Doc → Nat)
    (q t : String) (mn mx : Nat) (fs : List String) :
    ((search stores score q t mn mx fs).searchContent).Pairwise
      (fun a b => b.score ≤ a.score ∧
        (a.score = b.score → tieKeyLE a.doc.classId b.doc.classId = true)) := by
  have hs := searchHits_sorted stores score q t fs
  have himp : ∀ {a b : Hit}, hitRel a b →
      (b.score ≤ a.score ∧
        (a.score = b.score → tieKeyLE a.doc.classId b.doc.classId = true)) := by
    intro a b hab
    unfold hitRel hitLE at hab
    simp only [Bool.or_eq_true, Bool.and_eq_true, decide_eq_true_eq] at hab
    rcases hab with h | ⟨he, ht⟩
    · exact ⟨Nat.le_of_lt h, fun he => absurd h (by omega)⟩
    · exact ⟨Nat.le_of_eq he.symm, fun _ => ht⟩
  have hp := hs.imp himp
  exact List.Pairwise.sublist ((List.take_sublist _ _).trans (List.drop_sublist _ _)) hp

/-- Claim C3 counterexample: the partial bulk update issues its engine
write without any `refresh` parameter, so this ingestion write does not
request read-after-write visibility. -/
theorem bulkUpdate_refresh_cex :
    (bulkUpdateFromMap String "classes" [("neu.edu/202010/CS/2500", "patch")]).refresh = none
    ∧ (bulkUpdateFromMap String "classes" [("neu.edu/202010/CS/2500", "patch")]).refresh
        ≠ some "wait_for" := by decide

/-- Claim C3 amended: only the full-document bulk indexing path requests
read-after-write visibility (`refresh: wait_for`) on every request it
issues; the partial bulk update path sends its request with no refresh
parameter, leaving the engine's default visibility. -/
theorem bulk_refresh_policy (α : Type) (idx : String) (map : List (String × α))
    (r : BulkReq α) (hr : r ∈ bulkIndexFromMap α idx map) :
    r.refresh = some "wait_for" ∧ (bulkUpdateFromMap α idx map).refresh = none := by
  refine ⟨?_, rfl⟩
  unfold bulkIndexFromMap at hr
  rcases List.mem_map.mp hr with ⟨part, _, rfl⟩
  rfl

/-- Witness for the amended C3 theorem at a concrete one-document map. -/
theorem bulk_refresh_policy_witness :
    (mkIndexReq Nat "classes" [("a", 1)] ["a"]).refresh = some "wait_for"
    ∧ (bulkUpdateFromMap Nat "classes" [("a", 1)]).refresh = none :=
  bulk_refresh_policy Nat "classes" [("a", 1)] (mkIndexReq Nat "classes" [("a", 1)] ["a"])
    (by simp [bulkIndexFromMap, chunkList])

/-- Claim C4: the bulk upsert covers every id of the input map exactly
once, in order, partitioned into consecutive batches of at most 100
documents, and the promise chain executes the batch requests strictly
sequentially: its trace is start 0, finish 0, start 1, finish 1, …, so
batch `k+1` begins only after batch `k` completes. -/
theorem bulkIndexFromMap_batches (α : Type) (idx : String) (map : List (String × α)) :
    ((bulkIndexFromMap α idx map).flatMap bulkIds = map.map Prod.fst)
    ∧ (∀ r ∈ bulkIndexFromMap α idx map, (bulkIds r).length ≤ 100)
    ∧ chainTrace (bulkIndexFromMap α idx map).length
        = (List.range (bulkIndexFromMap α idx map).length).flatMap bulkEvents := by
  refine ⟨?_, ?_, ?_⟩
  · unfold bulkIndexFromMap
    rw [List.flatMap_map]
    simp only [bulkIds_mkIndexReq]
    have hid : ∀ L : List (List String), L.flatMap (fun part => part) = L.flatten := by
      intro L
      induction L with
      | nil => rfl
      | cons x xs ih => simp [List.flatMap_cons, ih]
    rw [hid]
    exact chunkList_flatten 100 _
  · intro r hr
    unfold bulkIndexFromMap at hr
    rcases List.mem_map.mp hr with ⟨part, hpart, rfl⟩
    rw [bulkIds_mkIndexReq]
    exact chunkList_length_le 100 (by omega) _ part hpart
  · unfold chainTrace
    simpa using foldl_append_eq_flatMap bulkEvents
      (List.range (bulkIndexFromMap α idx map).length) []

/-- Witness for C4 at a concrete one-document map: its single batch holds
at most 100 ids. -/
theorem bulkIndexFromMap_batches_witness :
    (bulkIds (mkIndexReq Nat "classes" [("a", 1)] ["a"])).length ≤ 100 :=
  (bulkIndexFromMap_batches Nat "classes" [("a", 1)]).2.1
    (mkIndexReq Nat "classes" [("a", 1)] ["a"]) (by simp [bulkIndexFromMap, chunkList])

/-- Claim C5: the batch get returns exactly the requested ids that exist
in the index, each mapped to its stored source; requested ids that are
missing are silently absent, and no id can make the call fail. -/
theorem getMapFromIDs_found_only {α : Type} (store : List (String × α)) (ids : List String) :
    (∀ id : String, (getMapFromIDs store ids).lookup id
        = if id ∈ ids then store.lookup id else none)
    ∧ (∀ p ∈ getMapFromIDs store ids, p.1 ∈ ids ∧ store.lookup p.1 = some p.2) := by
  constructor
  · intro id
    unfold getMapFromIDs
    rw [getMapFold_lookup store id ids []]
    by_cases hin : id ∈ ids
    · by_cases hsome : (store.lookup id).isSome
      · rw [if_pos ⟨hin, hsome⟩, if_pos hin]
      · rw [if_neg (fun hc => hsome hc.2), if_pos hin, List.lookup_nil]
        cases hl : store.lookup id with
        | none => rfl
        | some x => exact absurd (by rw [hl]; rfl) hsome
    · rw [if_neg (fun hc => hin hc.1), if_neg hin, List.lookup_nil]
  · intro p hp
    unfold getMapFromIDs at hp
    rcases getMapFold_mem store ids [] p hp with h | h
    · exact h
    · simp at h

/-- Witness for C5 at a concrete store and id list: a missing requested id
is silently absent. -/
theorem getMapFromIDs_found_only_witness :
    (getMapFromIDs [("a", "x"), ("c", "z")] ["a", "b", "c"]).lookup "b" = none := by
  have h := (getMapFromIDs_found_only [("a", "x"), ("c", "z")] ["a", "b", "c"]).1 "b"
  rw [if_pos (by decide)] at h
  rw [h]
  decide

/-- Claim C6: searching the empty string returns zero results for every
term, window, and field list — never a default listing. -/
theorem search_empty_query (stores : String → List Doc) (score : Doc → Nat)
    (t : String) (mn mx : Nat) (fs : List String) :
    (search stores score "" t mn mx fs).searchContent = []
    ∧ (search stores score "" t mn mx fs).resultCount = 0 := by
  have hmm : ∀ d, multiMatch "" fs d = false := by
    intro d
    have htok : tokenize "" = [] := rfl
    simp [multiMatch, fieldMatches, htok]
  have hnil : searchHits stores score "" t fs = [] := by
    unfold searchHits
    have hfil : (stores CLASS_INDEX).filter
        (fun d => multiMatch "" fs d && filterPass d t) = [] := by
      rw [List.filter_eq_nil_iff]
      intro d _
      simp [hmm d]
    rw [hfil]
    rfl
  exact ⟨by simp [search, hnil], by simp [search, hnil]⟩

/-- Claim C7 counterexample: for the all-digit, CRN-length query "10460"
the search still runs the ordinary `multi_match` text query — a class
whose name merely contains the token "10460" is returned too, and at
higher engine relevance it outranks the offering owning the CRN, so the
CRN owner is not the top result and more than the matching offering is
returned. -/
theorem search_crn_cex :
    ("10460".data.all Char.isDigit = true ∧ "10460".length = 5)
    ∧ ((search crnStores crnScore "10460" "202010" 0 2
        ["class.crn", "class.name"]).searchContent.map (fun h => h.doc.crn))
      = [some "99999", some "10460"]
    ∧ crnImpostor.crn ≠ some "10460" := by decide

/-- Claim C7 amended: an all-digit, CRN-length query takes the same code
path as every other query: no exact CRN filter is applied; any document of
the classes index that passes the term/type filter and matches the digits
in any searched field is ranked (the CRN owner among them when the CRN
field is searched), and every returned hit matched the `multi_match`
clause — fuzzy text scoring is not bypassed. -/
theorem search_crn_same_path (stores : String → List Doc) (score : Doc → Nat)
    (q t : String) (fs : List String) (d : Doc)
    (hdig : q.data.all Char.isDigit = true) (hlen : q.length = 5)
    (hd : d ∈ stores CLASS_INDEX) (hm : multiMatch q fs d = true)
    (hf : filterPass d t = true) :
    ((⟨score d, d⟩ : Hit) ∈ searchHits stores score q t fs)
    ∧ ∀ h ∈ searchHits stores score q t fs,
        multiMatch q fs h.doc = true ∧ filterPass h.doc t = true := by
  constructor
  · exact mem_searchHits.mpr ⟨d, hd, hm, hf, rfl⟩
  · intro h hh
    rcases mem_searchHits.mp hh with ⟨d', _, hm', hf', rfl⟩
    exact ⟨hm', hf'⟩

/-- Witness for the amended C7 theorem: the CRN owner is among the ranked
hits for its CRN query. -/
theorem search_crn_same_path_witness :
    (⟨1, crnOwner⟩ : Hit) ∈ searchHits crnStores crnScore "10460" "202010"
      ["class.crn", "class.name"] :=
  (search_crn_same_path crnStores crnScore "10460" "202010" ["class.crn", "class.name"]
    crnOwner (by decide) (by decide) (by decide) (by decide) (by decide)).1

/-- Claim C8 counterexample: a Lab and a Lecture of the same course family
(same classId and subject) match at equal relevance, yet the Lab is the
sole top-ranked hit — the code has no schedule-type demotion pass. -/
theorem search_lab_top_cex :
    (search sectionStores (fun _ => 7) "cs" "202010" 0 2 ["class.name"]).searchContent
      = [⟨7, labSection⟩, ⟨7, lectureSection⟩]
    ∧ labSection.scheduleType = some "Lab"
    ∧ lectureSection.scheduleType = some "Lecture"
    ∧ labSection.classId = lectureSection.classId
    ∧ labSection.subject = lectureSection.subject := by decide

/-- Claim C8 amended: the ranking applies no schedule-type demotion at
all — the sort comparator reads only the relevance score and
`class.classId`, being invariant under any relabeling of the schedule
type, and it ties same-family equal-score hits both ways, so a
Lab/Recitation/Seminar document that comes first in index order is placed
above an equally scored non-demoted document of the same family. -/
theorem ranking_ignores_scheduleType (a b : Hit) (s₁ s₂ : Option String) :
    hitLE ⟨a.score, { a.doc with scheduleType := s₁ }⟩
        ⟨b.score, { b.doc with scheduleType := s₂ }⟩ = hitLE a b
    ∧ (a.score = b.score → a.doc.classId = b.doc.classId →
        (hitLE a b = true ∧ hitLE b a = true)) := by
  constructor
  · rfl
  · intro he hc
    unfold hitLE
    rw [he, hc]
    simp [tieKeyLE_refl]

/-- Witness for the amended C8 theorem at the two CS 2500 sections. -/
theorem ranking_ignores_scheduleType_witness :
    hitLE ⟨7, labSection⟩ ⟨7, lectureSection⟩ = true
    ∧ hitLE ⟨7, lectureSection⟩ ⟨7, labSection⟩ = true :=
  (ranking_ignores_scheduleType ⟨7, labSection⟩ ⟨7, lectureSection⟩ none none).2
    (by decide) (by decide)

/-- Claim C9: the subject vocabulary is computed at most once per process:
from the empty cache, any number of successive calls issues at most one
engine aggregation; a call that finds the cache populated returns the
identical cached set with no engine query; and the first call computes
the set from the lowercased subject-terms aggregation over the class
documents. -/
theorem getSubjectsFromClasses_cached_once (store : List Doc) (n : Nat) :
    (iterateCalls store n none).2 ≤ 1
    ∧ (∀ s : List String, getSubjectsFromClasses store (some s) = (s, some s, false))
    ∧ getSubjectsFromClasses store none
        = (computeSubjects store, some (computeSubjects store), true) := by
  refine ⟨?_, fun s => rfl, rfl⟩
  cases n with
  | zero => simp [iterateCalls]
  | succ m =>
      simp [iterateCalls, getSubjectsFromClasses,
        iterateCalls_some store m (computeSubjects store)]

/-- Claim C10: `search` queries only the single `classes` index: its
result is unchanged under arbitrary replacement of every other index
(including the separately named `employees` index, which is therefore
never consulted), and every returned document — class or employee — is
served from the classes store. -/
theorem search_only_classes_index (stores stores' : String → List Doc)
    (score : Doc → Nat) (q t : String) (mn mx : Nat) (fs : List String)
    (hsame : stores CLASS_INDEX = stores' CLASS_INDEX) :
    search stores score q t mn mx fs = search stores' score q t mn mx fs
    ∧ CLASS_INDEX = "classes" ∧ EMPLOYEE_INDEX = "employees"
    ∧ CLASS_INDEX ≠ EMPLOYEE_INDEX
    ∧ ∀ h ∈ (search stores score q t mn mx fs).searchContent,
        h.doc ∈ stores CLASS_INDEX := by
  refine ⟨?_, rfl, rfl, by decide, ?_⟩
  · unfold search searchHits
    rw [hsame]
  · intro h hh
    rcases mem_searchHits.mp (mem_search_window hh) with ⟨d, hd, _, _, rfl⟩
    exact hd

/-- Witness for C10: replacing the contents of the employees index does
not change the search result. -/
theorem search_only_classes_index_witness :
    search sectionStores (fun _ => 7) "cs" "202010" 0 2 ["class.name"]
      = search sectionStoresB (fun _ => 7) "cs" "202010" 0 2 ["class.name"] :=
  (search_only_classes_index sectionStores sectionStoresB (fun _ => 7) "cs" "202010" 0 2
    ["class.name"] (by decide)).1

end SearchNEU
